import Mathlib

/-!
Verification of the period-by-period financial simulation engines of the
MortgageCalculator repository: the amortization loop of
`calc_loan_repayment.py` (`calculate_mortgage_schedule`) and the
calendar-driven cash-flow engine of `moving_plan_analysis.py`
(`calculate_moving_plan_analysis`).

Modelling conventions:
* Monetary amounts and rates are embedded as exact rationals (`ℚ`).  The
  source computes with IEEE floats; the spec states its arithmetic claims
  "up to rounding epsilon", which the exact-rational model realises with
  exact equality.
* `datetime.date` values are embedded as a `Date` structure of
  year/month/day naturals with proleptic-Gregorian day arithmetic
  (`nextDay`/`addDays`, `prevDay`/`subDays`) and the same comparison order
  as Python `datetime` (lexicographic on year, month, day).
* The periodic interest rate is a parameter of the loan configuration: the
  source derives it from the nominal annual rate by the real-number
  identity `(1+annual)**(1/periods_per_year) - 1` and then uses only the
  derived value inside the loop, so the loop is embedded over an arbitrary
  rational periodic rate.
* Python exceptions (the `ValueError` of `datetime.replace` on an invalid
  day-of-month, and the pandas error on an empty frame) are embedded as
  `Option` failures.
-/

namespace MortgageCalc

/-! ## Calendar arithmetic (embedding of `datetime.date`) -/

/-- Gregorian leap-year rule used by Python `datetime`/`calendar`. -/
def isLeap (y : ℕ) : Bool := y % 4 == 0 && (y % 100 != 0 || y % 400 == 0)

/-- Number of days in month `m` (1–12) of year `y`. -/
def daysInMonth (y m : ℕ) : ℕ :=
  if m = 2 then (if isLeap y then 29 else 28)
  else if m = 4 ∨ m = 6 ∨ m = 9 ∨ m = 11 then 30
  else 31

/-- Cumulative number of days strictly before month `m` in a year whose
leapness is `leap`. -/
def daysBefore (leap : Bool) (m : ℕ) : ℕ :=
  (match m with
   | 0 => 0 | 1 => 0 | 2 => 31 | 3 => 59 | 4 => 90 | 5 => 120 | 6 => 151
   | 7 => 181 | 8 => 212 | 9 => 243 | 10 => 273 | 11 => 304 | 12 => 334
   | _ => 365)
  + (if leap ∧ 3 ≤ m then 1 else 0)

/-- A calendar date, mirroring the `datetime` objects of the source. -/
structure Date where
  year : ℕ
  month : ℕ
  day : ℕ
  deriving DecidableEq, Repr

/-- The dates representable by Python `datetime` (year at least 1, month
1–12, day within the month). -/
def Valid (d : Date) : Prop :=
  1 ≤ d.year ∧ 1 ≤ d.month ∧ d.month ≤ 12 ∧ 1 ≤ d.day ∧ d.day ≤ daysInMonth d.year d.month

instance (d : Date) : Decidable (Valid d) := by unfold Valid; infer_instance

/-- Chronological strict order on dates: Python `datetime` comparison is
lexicographic on (year, month, day). -/
def dateLT (a b : Date) : Prop :=
  a.year < b.year ∨
    (a.year = b.year ∧ (a.month < b.month ∨ (a.month = b.month ∧ a.day < b.day)))

instance (a b : Date) : Decidable (dateLT a b) := by unfold dateLT; infer_instance

/-- Chronological order on dates, with equality. -/
def dateLE (a b : Date) : Prop := dateLT a b ∨ a = b

instance (a b : Date) : Decidable (dateLE a b) := by unfold dateLE; infer_instance

/-- Days since 31/12/0000 in the proleptic Gregorian calendar (rata die);
`toRD ⟨1,1,1⟩ = 1`. -/
def epochDays (y : ℕ) : ℕ :=
  365 * (y - 1) + (y - 1) / 4 - (y - 1) / 100 + (y - 1) / 400

def toRD (d : Date) : ℕ :=
  epochDays d.year + daysBefore (isLeap d.year) d.month + d.day

/-- Day of the week in Python `datetime.weekday` numbering:
Monday = 0, …, Sunday = 6.  01/01/0001 was a Monday. -/
def weekdayNat (d : Date) : ℕ := (toRD d - 1) % 7

/-- The calendar day after `d` (embedding `d + timedelta(days=1)`). -/
def nextDay : Date → Date
  | ⟨y, m, day⟩ =>
    if day < daysInMonth y m then ⟨y, m, day + 1⟩
    else if m < 12 then ⟨y, m + 1, 1⟩
    else ⟨y + 1, 1, 1⟩

/-- `d + timedelta(days=n)`. -/
def addDays (d : Date) : ℕ → Date
  | 0 => d
  | n + 1 => nextDay (addDays d n)

/-- The calendar day before `d` (embedding `d - timedelta(days=1)`). -/
def prevDay : Date → Date
  | ⟨y, m, day⟩ =>
    if 1 < day then ⟨y, m, day - 1⟩
    else if 1 < m then ⟨y, m - 1, daysInMonth y (m - 1)⟩
    else ⟨y - 1, 12, 31⟩

/-- `d - timedelta(days=n)`. -/
def subDays (d : Date) : ℕ → Date
  | 0 => d
  | n + 1 => prevDay (subDays d n)

/-! ### Calendar lemmas -/

theorem daysInMonth_pos (y m : ℕ) : 1 ≤ daysInMonth y m := by
  unfold daysInMonth
  split_ifs <;> omega

theorem daysInMonth_le (y m : ℕ) : daysInMonth y m ≤ 31 := by
  unfold daysInMonth
  split_ifs <;> omega

theorem Valid_mk {y m d : ℕ} :
    Valid ⟨y, m, d⟩ ↔ (1 ≤ y ∧ 1 ≤ m ∧ m ≤ 12 ∧ 1 ≤ d ∧ d ≤ daysInMonth y m) :=
  Iff.rfl

theorem valid_nextDay {d : Date} (h : Valid d) : Valid (nextDay d) := by
  rcases d with ⟨y, m, day⟩
  rw [Valid_mk] at h
  obtain ⟨hy, hm1, hm2, hd1, hd2⟩ := h
  have h31 : daysInMonth (y + 1) 1 = 31 := by unfold daysInMonth; norm_num
  have hp : 1 ≤ daysInMonth y (m + 1) := daysInMonth_pos _ _
  simp only [nextDay]
  split_ifs with h1 h2 <;> rw [Valid_mk] <;> simp_all <;> omega

theorem isLeap_iff (y : ℕ) :
    isLeap y = true ↔ (y % 4 = 0 ∧ (y % 100 ≠ 0 ∨ y % 400 = 0)) := by
  simp [isLeap]

theorem epochDays_succ (y : ℕ) (h : 1 ≤ y) :
    epochDays (y + 1) = epochDays y + 365 + (if isLeap y then 1 else 0) := by
  obtain ⟨z, rfl⟩ : ∃ z, y = z + 1 := ⟨y - 1, by omega⟩
  have h4 := Nat.succ_div z 4
  have h100 := Nat.succ_div z 100
  have h400 := Nat.succ_div z 400
  unfold epochDays
  simp only [Nat.add_sub_cancel]
  rw [h4, h100, h400]
  simp only [isLeap_iff]
  split_ifs <;> omega

theorem daysBefore_add_daysInMonth (y m : ℕ) (h1 : 1 ≤ m) (h2 : m ≤ 12) :
    daysBefore (isLeap y) m + daysInMonth y m = daysBefore (isLeap y) (m + 1) := by
  interval_cases m <;> cases h : isLeap y <;>
    simp [daysBefore, daysInMonth, h]

theorem toRD_nextDay {d : Date} (h : Valid d) : toRD (nextDay d) = toRD d + 1 := by
  rcases d with ⟨y, m, day⟩
  rw [Valid_mk] at h
  obtain ⟨hy, hm1, hm2, hd1, hd2⟩ := h
  simp only [nextDay]
  split_ifs with h1 h2
  · simp [toRD]; omega
  · have hb := daysBefore_add_daysInMonth y m hm1 (by omega)
    simp only [] at hb hd2 ⊢
    simp [toRD] at *
    omega
  · have hm : m = 12 := by omega
    have hday : day = 31 := by
      have : daysInMonth y m = 31 := by
        rw [hm]; unfold daysInMonth; norm_num
      omega
    have he := epochDays_succ y hy
    subst hm hday
    simp [toRD, daysBefore] at *
    cases h : isLeap y <;> simp [h] at he ⊢ <;> omega

theorem valid_addDays {d : Date} (h : Valid d) (n : ℕ) : Valid (addDays d n) := by
  induction n with
  | zero => exact h
  | succ n ih => exact valid_nextDay ih

theorem toRD_addDays {d : Date} (h : Valid d) (n : ℕ) :
    toRD (addDays d n) = toRD d + n := by
  induction n with
  | zero => rfl
  | succ n ih =>
    show toRD (nextDay (addDays d n)) = toRD d + (n + 1)
    rw [toRD_nextDay (valid_addDays h n), ih]
    omega

theorem addDays_addDays (d : Date) (a b : ℕ) :
    addDays (addDays d a) b = addDays d (a + b) := by
  induction b with
  | zero => rfl
  | succ b ih =>
    show nextDay (addDays (addDays d a) b) = addDays d (a + (b + 1))
    rw [ih]
    rfl

theorem daysBefore_day_le (y m d : ℕ) (h1 : 1 ≤ m) (h2 : m ≤ 12)
    (h3 : d ≤ daysInMonth y m) :
    daysBefore (isLeap y) m + d ≤ 365 + (if isLeap y then 1 else 0) := by
  cases h : isLeap y <;> interval_cases m <;>
    simp [daysBefore, daysInMonth, h] at h3 ⊢ <;> omega

theorem daysBefore_mono (leap : Bool) {m1 m2 : ℕ} (h : m1 ≤ m2) (h2 : m2 ≤ 13) :
    daysBefore leap m1 ≤ daysBefore leap m2 := by
  cases leap <;> interval_cases m2 <;> interval_cases m1 <;> simp [daysBefore]

theorem epochDays_le_succ (y : ℕ) : epochDays y ≤ epochDays (y + 1) := by
  cases y with
  | zero => norm_num [epochDays]
  | succ n =>
    have := epochDays_succ (n + 1) (by omega)
    omega

theorem epochDays_mono {y1 y2 : ℕ} (h : y1 ≤ y2) : epochDays y1 ≤ epochDays y2 := by
  induction y2 with
  | zero =>
    have : y1 = 0 := by omega
    simp [this]
  | succ n ih =>
    rcases Nat.lt_or_ge y1 (n + 1) with h1 | h1
    · exact le_trans (ih (by omega)) (epochDays_le_succ n)
    · have : y1 = n + 1 := by omega
      simp [this]

theorem toRD_lt_of_dateLT {a b : Date} (ha : Valid a) (hb : Valid b) (h : dateLT a b) :
    toRD a < toRD b := by
  obtain ⟨hay, ham1, ham2, had1, had2⟩ := ha
  obtain ⟨hby, hbm1, hbm2, hbd1, hbd2⟩ := hb
  rcases h with hy | ⟨hy, hm | ⟨hm, hd⟩⟩
  · have h1 := daysBefore_day_le a.year a.month a.day ham1 ham2 had2
    have h2 := epochDays_succ a.year hay
    have h3 : epochDays (a.year + 1) ≤ epochDays b.year := epochDays_mono (by omega)
    unfold toRD
    omega
  · have hstep := daysBefore_add_daysInMonth a.year a.month ham1 ham2
    have hmono : daysBefore (isLeap a.year) (a.month + 1) ≤ daysBefore (isLeap a.year) b.month :=
      daysBefore_mono _ (by omega) (by omega)
    unfold toRD
    rw [hy] at hstep hmono had2 ⊢
    omega
  · unfold toRD
    rw [hy, hm]
    omega

theorem dateLT_trichotomy (a b : Date) : dateLT a b ∨ a = b ∨ dateLT b a := by
  rcases a with ⟨y1, m1, d1⟩
  rcases b with ⟨y2, m2, d2⟩
  simp only [dateLT, Date.mk.injEq]
  omega

theorem toRD_lt_iff {a b : Date} (ha : Valid a) (hb : Valid b) :
    dateLT a b ↔ toRD a < toRD b := by
  constructor
  · exact toRD_lt_of_dateLT ha hb
  · intro h
    rcases dateLT_trichotomy a b with h1 | h1 | h1
    · exact h1
    · subst h1; omega
    · have := toRD_lt_of_dateLT hb ha h1
      omega

theorem toRD_le_iff {a b : Date} (ha : Valid a) (hb : Valid b) :
    dateLE a b ↔ toRD a ≤ toRD b := by
  constructor
  · rintro (h | rfl)
    · exact le_of_lt (toRD_lt_of_dateLT ha hb h)
    · exact le_refl _
  · intro h
    rcases dateLT_trichotomy a b with h1 | h1 | h1
    · exact Or.inl h1
    · exact Or.inr h1
    · have := toRD_lt_of_dateLT hb ha h1
      omega

theorem toRD_inj {a b : Date} (ha : Valid a) (hb : Valid b) (h : toRD a = toRD b) :
    a = b := by
  rcases dateLT_trichotomy a b with h1 | h1 | h1
  · have := toRD_lt_of_dateLT ha hb h1; omega
  · exact h1
  · have := toRD_lt_of_dateLT hb ha h1; omega

/-! ## Amortization engine (embedding of `calculate_mortgage_schedule`) -/

/-- `payment_type` argument: `'Weekly' | 'Fortnightly' | 'Monthly'`; any
other string raises a `ValueError` before the simulation starts, so the
embedding restricts to the three accepted values. -/
inductive PaymentType
  | Weekly
  | Fortnightly
  | Monthly
  deriving DecidableEq, Repr

def periods_per_year : PaymentType → ℕ
  | .Weekly => 52
  | .Fortnightly => 26
  | .Monthly => 12

/-- Inputs of `calculate_mortgage_schedule`.  The source derives the
periodic rate from the nominal annual rate by the real-exponentiation
identity `(1+annual)**(1/periods_per_year) - 1` and uses only the derived
value afterwards; the embedding takes that derived periodic rate as the
input, ranging over all rationals. -/
structure LoanConfig where
  loan_amount : ℚ
  payment_type : PaymentType
  payment_amount : ℚ
  duration_years : ℕ
  periodic_interest_rate : ℚ
  offset_start_balance : ℚ
  offset_growth_per_month : ℚ
  loan_start_date : Date
  deriving DecidableEq, Repr

/-- `offset_growth_per_month / (periods_per_year / 12)` (true division). -/
def offset_growth_per_period (cfg : LoanConfig) : ℚ :=
  cfg.offset_growth_per_month / ((periods_per_year cfg.payment_type : ℚ) / 12)

/-- Safety break: `duration_years * periods_per_year * 2`. -/
def max_periods (cfg : LoanConfig) : ℕ :=
  cfg.duration_years * periods_per_year cfg.payment_type * 2

/-- Payment date of period `n` (1-based).  Weekly/Fortnightly stride by
7/14 exact days; Monthly uses the source's
`timedelta(days=(n-1) * (365.25 / 12))` approximation, whose calendar-date
component is the floor of `(n-1) * 487/16` days (the float arithmetic is
exact for these dyadic values). -/
def payment_date (cfg : LoanConfig) (n : ℕ) : Date :=
  match cfg.payment_type with
  | .Fortnightly => addDays cfg.loan_start_date ((n - 1) * 14)
  | .Weekly => addDays cfg.loan_start_date ((n - 1) * 7)
  | .Monthly => addDays cfg.loan_start_date ((n - 1) * 487 / 16)

/-- Loan-year of a payment date: anniversary comparison
`(month, day) ≥ (start month, start day)` adds 1 to the year difference. -/
def loan_year_of (cfg : LoanConfig) (d : Date) : ℤ :=
  if d.month > cfg.loan_start_date.month ∨
     (d.month = cfg.loan_start_date.month ∧ d.day ≥ cfg.loan_start_date.day)
  then (d.year : ℤ) - cfg.loan_start_date.year + 1
  else (d.year : ℤ) - cfg.loan_start_date.year

/-- One row of the amortization schedule (the per-period dictionary the
source appends to `schedule_data`; the derived display-only
"Remaining Term" string of the post-pass is presentation and omitted). -/
structure ScheduleRow where
  period : ℕ
  loanYear : ℤ
  periodInLoanYear : ℕ
  paymentDate : Date
  paymentWeekday : ℕ
  startingLoanBalance : ℚ
  offsetAccountBalance : ℚ
  effectiveLoanBalance : ℚ
  interestPaid : ℚ
  principalPaid : ℚ
  actualPayment : ℚ
  remainingLoanBalance : ℚ
  deriving DecidableEq, Repr

instance : Inhabited ScheduleRow :=
  ⟨⟨0, 0, 0, ⟨0, 0, 0⟩, 0, 0, 0, 0, 0, 0, 0, 0⟩⟩

/-- The `while current_loan_balance > 0 and period_counter < max_periods`
loop.  `fuel` counts the periods still allowed by the safety break,
`counter` is `period_counter`, `counts` is `period_in_loan_year_counts`. -/
def scheduleLoop (cfg : LoanConfig) : ℕ → ℚ → ℚ → ℕ → (ℤ → ℕ) → List ScheduleRow
  | 0, _, _, _, _ => []
  | fuel + 1, balance, offset, counter, counts =>
    if 0 < balance then
      let n := counter + 1
      let pdate := payment_date cfg n
      let ly := loan_year_of cfg pdate
      let counts2 : ℤ → ℕ := fun z => if z = ly then counts z + 1 else counts z
      let eff := max 0 (balance - offset)
      let interest := eff * cfg.periodic_interest_rate
      let principal := cfg.payment_amount - interest
      if balance - principal < 0 then
        [⟨n, ly, counts2 ly, pdate, weekdayNat pdate, balance, offset, eff, interest,
          balance, balance + interest, 0⟩]
      else
        ⟨n, ly, counts2 ly, pdate, weekdayNat pdate, balance, offset, eff, interest,
          principal, cfg.payment_amount, balance - principal⟩ ::
          scheduleLoop cfg fuel (balance - principal)
            (offset + offset_growth_per_period cfg) n counts2
    else []

/-- The amortization schedule returned by `calculate_mortgage_schedule`
(the unformatted rows of the returned DataFrame). -/
def calculate_mortgage_schedule (cfg : LoanConfig) : List ScheduleRow :=
  scheduleLoop cfg (max_periods cfg) cfg.loan_amount cfg.offset_start_balance 0 (fun _ => 0)

/-- Sum of the "Principal Paid" column. -/
def sumPrincipal (rows : List ScheduleRow) : ℚ :=
  (rows.map (·.principalPaid)).sum

/-- Ending balance of the last emitted row (`dflt` when no row exists). -/
def finalBalance (rows : List ScheduleRow) (dflt : ℚ) : ℚ :=
  ((rows.getLast?).map (·.remainingLoanBalance)).getD dflt

/-! ### Amortization lemmas -/

theorem periods_per_year_pos (pt : PaymentType) : 0 < periods_per_year pt := by
  cases pt <;> simp [periods_per_year]

theorem offset_growth_per_period_nonneg (cfg : LoanConfig)
    (h : 0 ≤ cfg.offset_growth_per_month) : 0 ≤ offset_growth_per_period cfg := by
  unfold offset_growth_per_period
  have := periods_per_year_pos cfg.payment_type
  have hpos : (0 : ℚ) < (periods_per_year cfg.payment_type : ℚ) / 12 := by positivity
  exact div_nonneg h (le_of_lt hpos)

theorem scheduleLoop_balances (cfg : LoanConfig) (fuel : ℕ) :
    ∀ (bal off : ℚ) (counter : ℕ) (counts : ℤ → ℕ),
      ∀ r ∈ scheduleLoop cfg fuel bal off counter counts,
        0 < r.startingLoanBalance ∧ 0 ≤ r.remainingLoanBalance := by
  induction fuel with
  | zero => intro bal off counter counts r hr; simp [scheduleLoop] at hr
  | succ fuel ih =>
    intro bal off counter counts r hr
    simp only [scheduleLoop] at hr
    split_ifs at hr with h1 h2
    · simp only [List.mem_singleton] at hr
      subst hr
      exact ⟨h1, le_refl 0⟩
    · rcases List.mem_cons.mp hr with hr | hr
      · subst hr
        refine ⟨h1, ?_⟩
        simpa using le_of_not_lt h2
      · exact ih _ _ _ _ r hr
    · simp at hr

theorem scheduleLoop_monotone (cfg : LoanConfig)
    (hrate : 0 ≤ cfg.periodic_interest_rate)
    (hgrow : 0 ≤ cfg.offset_growth_per_month)
    (hpay : cfg.periodic_interest_rate * cfg.loan_amount ≤ cfg.payment_amount)
    (fuel : ℕ) :
    ∀ (bal off : ℚ) (counter : ℕ) (counts : ℤ → ℕ),
      0 ≤ off → bal ≤ cfg.loan_amount →
      ∀ r ∈ scheduleLoop cfg fuel bal off counter counts,
        r.remainingLoanBalance ≤ r.startingLoanBalance := by
  induction fuel with
  | zero => intro bal off counter counts _ _ r hr; simp [scheduleLoop] at hr
  | succ fuel ih =>
    intro bal off counter counts hoff hbal r hr
    simp only [scheduleLoop] at hr
    split_ifs at hr with h1 h2
    · simp only [List.mem_singleton] at hr
      subst hr
      simpa using le_of_lt h1
    · have heff : max 0 (bal - off) ≤ bal := by
        rcases le_or_lt 0 (bal - off) with h | h
        · rw [max_eq_right h]; linarith
        · rw [max_eq_left (le_of_lt h)]; linarith
      have hint : max 0 (bal - off) * cfg.periodic_interest_rate ≤
          cfg.periodic_interest_rate * cfg.loan_amount := by
        rw [mul_comm]
        exact mul_le_mul_of_nonneg_left (le_trans heff hbal) hrate
      have hprin : 0 ≤ cfg.payment_amount - max 0 (bal - off) * cfg.periodic_interest_rate := by
        linarith
      rcases List.mem_cons.mp hr with hr | hr
      · subst hr
        simpa using hprin
      · refine ih _ _ _ _ ?_ ?_ r hr
        · have := offset_growth_per_period_nonneg cfg hgrow
          linarith
        · linarith
    · simp at hr

theorem scheduleLoop_length (cfg : LoanConfig) (fuel : ℕ) :
    ∀ (bal off : ℚ) (counter : ℕ) (counts : ℤ → ℕ),
      (scheduleLoop cfg fuel bal off counter counts).length ≤ fuel := by
  induction fuel with
  | zero => intro bal off counter counts; simp [scheduleLoop]
  | succ fuel ih =>
    intro bal off counter counts
    simp only [scheduleLoop]
    split_ifs <;> simp
    exact le_trans (ih _ _ _ _) (by omega)

theorem sumPrincipal_cons (r : ScheduleRow) (rows : List ScheduleRow) :
    sumPrincipal (r :: rows) = r.principalPaid + sumPrincipal rows := by
  simp [sumPrincipal]

theorem finalBalance_cons (r : ScheduleRow) (rows : List ScheduleRow) (d : ℚ) :
    finalBalance (r :: rows) d = finalBalance rows r.remainingLoanBalance := by
  unfold finalBalance
  cases rows with
  | nil => simp
  | cons a t =>
    rw [List.getLast?_cons_cons]
    rw [List.getLast?_eq_getLast (a :: t) (by simp)]
    simp

theorem scheduleLoop_telescope (cfg : LoanConfig) (fuel : ℕ) :
    ∀ (bal off : ℚ) (counter : ℕ) (counts : ℤ → ℕ),
      sumPrincipal (scheduleLoop cfg fuel bal off counter counts) =
        bal - finalBalance (scheduleLoop cfg fuel bal off counter counts) bal := by
  induction fuel with
  | zero => intro bal off counter counts; simp [scheduleLoop, sumPrincipal, finalBalance]
  | succ fuel ih =>
    intro bal off counter counts
    simp only [scheduleLoop]
    split_ifs with h1 h2
    · simp [sumPrincipal, finalBalance]
    · rw [sumPrincipal_cons, finalBalance_cons]
      have hrec := ih (bal - (cfg.payment_amount - max 0 (bal - off) * cfg.periodic_interest_rate))
        (off + offset_growth_per_period cfg) (counter + 1)
        (fun z => if z = loan_year_of cfg (payment_date cfg (counter + 1)) then
          counts z + 1 else counts z)
      simp only at hrec ⊢
      linarith
    · simp [sumPrincipal, finalBalance]

/-! ### Amortization claims -/

/-- A loan whose scheduled payment does not cover the interest: the
balance grows every period. -/
def growingLoan : LoanConfig :=
  ⟨1000, .Monthly, 0, 1, 1, 0, 0, ⟨2025, 1, 1⟩⟩

/-- A loan whose payment exactly equals the interest: the balance stays at
1000 forever and the safety cap is exhausted. -/
def stalledLoan : LoanConfig :=
  ⟨1000, .Monthly, 1000, 1, 1, 0, 0, ⟨2025, 1, 1⟩⟩

/-- A zero-rate loan that pays off in four periods. -/
def payingLoan : LoanConfig :=
  ⟨1000, .Monthly, 300, 1, 0, 0, 0, ⟨2025, 1, 1⟩⟩

set_option maxRecDepth 8000 in
unseal Rat.add Rat.sub Rat.mul Rat.inv in
/-- Claim C1, counterexample: for the valid configuration `growingLoan`
(payment 0, periodic rate 1) the very first emitted record has ending
balance 2000, strictly above its starting balance 1000, so the balance
sequence is not monotonically non-increasing. -/
theorem claim1_counterexample :
    (calculate_mortgage_schedule growingLoan).headI ∈ calculate_mortgage_schedule growingLoan ∧
    (calculate_mortgage_schedule growingLoan).headI.startingLoanBalance <
      (calculate_mortgage_schedule growingLoan).headI.remainingLoanBalance := by
  constructor <;> decide

/-- Claim C1, amended: in every record of every configuration the starting
balance is positive and the ending balance non-negative (the loan balance
is never negative); and whenever the periodic rate, offset start and
offset growth are non-negative and the scheduled payment covers the
interest on the full principal (`rate * loan_amount ≤ payment`), every
record's ending balance is at most its starting balance. -/
theorem claim1_theorem :
    (∀ cfg : LoanConfig, ∀ r ∈ calculate_mortgage_schedule cfg,
        0 < r.startingLoanBalance ∧ 0 ≤ r.remainingLoanBalance) ∧
    (∀ cfg : LoanConfig,
        0 ≤ cfg.periodic_interest_rate →
        0 ≤ cfg.offset_start_balance →
        0 ≤ cfg.offset_growth_per_month →
        cfg.periodic_interest_rate * cfg.loan_amount ≤ cfg.payment_amount →
        ∀ r ∈ calculate_mortgage_schedule cfg,
          r.remainingLoanBalance ≤ r.startingLoanBalance) := by
  constructor
  · intro cfg r hr
    exact scheduleLoop_balances cfg (max_periods cfg) _ _ _ _ r hr
  · intro cfg hrate hoff hgrow hpay r hr
    exact scheduleLoop_monotone cfg hrate hgrow hpay (max_periods cfg) _ _ _ _ hoff
      (le_refl _) r hr

set_option maxRecDepth 8000 in
unseal Rat.add Rat.sub Rat.mul Rat.inv in
/-- Claim C1, witness: the amended theorem applied to the concrete paying
loan and its first record. -/
theorem claim1_witness :
    0 ≤ payingLoan.periodic_interest_rate ∧
    ((calculate_mortgage_schedule payingLoan).headI.remainingLoanBalance ≤
      (calculate_mortgage_schedule payingLoan).headI.startingLoanBalance ∧
     0 ≤ (calculate_mortgage_schedule payingLoan).headI.remainingLoanBalance) :=
  ⟨by decide,
   claim1_theorem.2 payingLoan (by decide) (by decide) (by decide) (by decide)
     (calculate_mortgage_schedule payingLoan).headI (by decide),
   (claim1_theorem.1 payingLoan (calculate_mortgage_schedule payingLoan).headI (by decide)).2⟩

set_option maxRecDepth 8000 in
unseal Rat.add Rat.sub Rat.mul Rat.inv in
/-- Claim C3: the loop always terminates within the safety cap
(`duration_years * periods_per_year * 2` rows at most), and on the
concrete configuration `stalledLoan` it exhausts the cap with the loan
balance still at 1000 — but the returned schedule is all that
`calculate_mortgage_schedule` produces: no separate terminal-reason value
exists in the source, so cap exhaustion is only recoverable from the last
record's positive remaining balance. -/
theorem claim3_theorem :
    (∀ cfg : LoanConfig,
        (calculate_mortgage_schedule cfg).length ≤ max_periods cfg) ∧
    (calculate_mortgage_schedule stalledLoan).length = max_periods stalledLoan ∧
    finalBalance (calculate_mortgage_schedule stalledLoan) stalledLoan.loan_amount = 1000 := by
  refine ⟨fun cfg => scheduleLoop_length cfg (max_periods cfg) _ _ _ _, ?_, ?_⟩ <;> decide

set_option maxRecDepth 8000 in
unseal Rat.add Rat.sub Rat.mul Rat.inv in
/-- Claim C4, counterexample: on `stalledLoan` (payment equal to interest)
the safety cap is exhausted and the principal-paid column sums to 0, not
to the original principal 1000. -/
theorem claim4_counterexample :
    sumPrincipal (calculate_mortgage_schedule stalledLoan) = 0 ∧
    stalledLoan.loan_amount = 1000 := by
  constructor <;> decide

/-- Claim C4, amended: the principal-paid column always sums to the
original principal minus the final remaining balance (the telescoping
identity realised by the final-period clamp), hence it equals the original
principal exactly whenever the simulation ends with the balance at zero. -/
theorem claim4_theorem :
    (∀ cfg : LoanConfig,
        sumPrincipal (calculate_mortgage_schedule cfg) =
          cfg.loan_amount -
            finalBalance (calculate_mortgage_schedule cfg) cfg.loan_amount) ∧
    (∀ cfg : LoanConfig,
        finalBalance (calculate_mortgage_schedule cfg) cfg.loan_amount = 0 →
        sumPrincipal (calculate_mortgage_schedule cfg) = cfg.loan_amount) := by
  have h := fun cfg : LoanConfig =>
    scheduleLoop_telescope cfg (max_periods cfg) cfg.loan_amount cfg.offset_start_balance 0
      (fun _ => 0)
  refine ⟨fun cfg => h cfg, fun cfg hz => ?_⟩
  have := h cfg
  rw [calculate_mortgage_schedule] at hz ⊢
  rw [this, hz, sub_zero]

set_option maxRecDepth 8000 in
unseal Rat.add Rat.sub Rat.mul Rat.inv in
/-- Claim C4, witness: the amended theorem applied to the concrete paying
loan, which ends at balance zero; its principal column sums to the
original 1000. -/
theorem claim4_witness :
    finalBalance (calculate_mortgage_schedule payingLoan) payingLoan.loan_amount = 0 ∧
    sumPrincipal (calculate_mortgage_schedule payingLoan) = payingLoan.loan_amount :=
  ⟨by decide, claim4_theorem.2 payingLoan (by decide)⟩

/-! ## Cash-flow event engine (embedding of `calculate_moving_plan_analysis`) -/

/-- One scheduled cash-flow event, as appended by `add_cash_flow_event`.
The Python `cash_flow_events` dict keyed by formatted date with per-date
lists in insertion order is equivalent to this flat insertion-ordered
list: the daily sweep recovers a date's list by filtering on the date. -/
structure Event where
  date : Date
  description : String
  amount : ℚ
  milestone : String
  deriving DecidableEq, Repr

/-- One row of the daily cash-flow table (`cash_flow_data`).  The
"Day of Week" column is carried as the Python weekday number rather than
the English name. -/
structure CashFlowRecord where
  date : Date
  dayOfWeek : ℕ
  milestone : String
  description : String
  amount : ℚ
  runningBalance : ℚ
  deriving DecidableEq, Repr

/-- Fixed schedule start `01/08/2025`. -/
def start_date : Date := ⟨2025, 8, 1⟩

/-- Date of the one-off income events (`income_date = start_date`). -/
def income_date : Date := start_date

/-- First day of the daily sweep: `start_date - timedelta(days=1)`,
i.e. 31/07/2025 — also the date of the "Starting Balance" seed event. -/
def analysis_start_date : Date := subDays start_date 1

/-- Move-out date: advance to the coming Sunday (`(6 - weekday) % 7` days,
bumped to 7 when settlement is itself a Sunday), then add 6 days to land
on the Saturday of the following week. -/
def move_out_date (settlement : Date) : Date :=
  let days_to_end_of_week := (6 - weekdayNat settlement) % 7
  let days_to_end_of_week2 :=
    if days_to_end_of_week = 0 then 7 else days_to_end_of_week
  addDays (addDays settlement days_to_end_of_week2) 6

/-- `settlement_date.replace(...)`: keeps the day-of-month and raises
`ValueError` (here `none`) when the target year leaves `datetime`'s
`MINYEAR..MAXYEAR` range (1..9999) or when that day does not exist in the
target month. -/
def replaceYM (d : Date) (y m : ℕ) : Option Date :=
  if 1 ≤ y ∧ y ≤ 9999 ∧ 1 ≤ d.day ∧ d.day ≤ daysInMonth y m then some ⟨y, m, d.day⟩
  else none

/-- Window end: settlement + 2 calendar months, with explicit year
rollover for November and December settlements. -/
def end_date (settlement : Date) : Option Date :=
  if 11 ≤ settlement.month then
    if settlement.month = 11 then replaceYM settlement (settlement.year + 1) 1
    else replaceYM settlement (settlement.year + 1) 2
  else replaceYM settlement settlement.year (settlement.month + 2)

/-- First day of the month after `d`. -/
def nextMonth (d : Date) : Date :=
  if d.month = 12 then ⟨d.year + 1, 1, 1⟩ else ⟨d.year, d.month + 1, 1⟩

/-- Linearised month index used to size the monthly-income loop fuel. -/
def monthIdx (d : Date) : ℕ := d.year * 12 + d.month

/-- Events the monthly-income loop appends for the month starting at
`cur`: nothing on `income_date` itself; before the settlement date the two
pre-settlement savings amounts plus the August-2025-only extra; on or
after the settlement date the single combined income amount. -/
def monthlyBody (settlement cur : Date) : List Event :=
  if cur = income_date then []
  else if dateLT cur settlement then
    [⟨cur, "Monthly Savings #1 (Pre-Settlement)", 5700, "PRE-SETTLEMENT INCOME"⟩,
     ⟨cur, "Monthly Savings #2 (Pre-Settlement)", 500, "PRE-SETTLEMENT INCOME"⟩] ++
    (if cur.month = 8 ∧ cur.year = 2025 then
      [⟨cur, "Monthly Savings #3 (August Only)", 1200, "PRE-SETTLEMENT INCOME"⟩]
     else [])
  else
    [⟨cur, "Monthly Income (Post-Settlement - Mortgage Allocation + Savings)", 8261,
      "MONTHLY INCOME"⟩]

/-- The `while current_month <= end_date` loop, stepping month by month
from August 2025. -/
def monthlyIncomeEvents (settlement endD : Date) : ℕ → Date → List Event
  | 0, _ => []
  | fuel + 1, cur =>
    if dateLE cur endD then
      monthlyBody settlement cur ++ monthlyIncomeEvents settlement endD fuel (nextMonth cur)
    else []

/-- The `while mortgage_date <= end_date` loop: $2410 every 14 days
starting 14 days after settlement. -/
def mortgageEvents (endD : Date) : ℕ → Date → ℕ → List Event
  | 0, _, _ => []
  | fuel + 1, cur, n =>
    if dateLE cur endD then
      ⟨cur, "Mortgage Payment #" ++ toString n, -2410, "MORTGAGE"⟩ ::
        mortgageEvents endD fuel (addDays cur 14) (n + 1)
    else []

/-- Fuel bound for the monthly loop: number of month steps from August
2025 to the window end, inclusive. -/
def monthsFuel (endD : Date) : ℕ := monthIdx endD + 1 - monthIdx ⟨2025, 8, 1⟩

/-- Fuel bound for the fortnightly mortgage loop (days are a safe
overcount of fortnights). -/
def mortgageFuel (settlement endD : Date) : ℕ := toRD endD + 1 - toRD settlement

/-- The full event schedule, in the insertion order of the source. -/
def cash_flow_events (startBal : ℚ) (settlement moveOut endD : Date) : List Event :=
  [⟨analysis_start_date, "Starting Balance", startBal, "INITIAL"⟩,
   ⟨income_date, "Additional Savings #1", 5700, "INCOME"⟩,
   ⟨income_date, "Additional Savings #2", 1200, "INCOME"⟩,
   ⟨income_date, "Additional Savings #3", 500, "INCOME"⟩,
   ⟨settlement, "House Settlement Payment", -52046, "SETTLEMENT"⟩,
   ⟨addDays settlement 1, "Cleaning House", -200, "POST-SETTLEMENT"⟩,
   ⟨addDays settlement 1, "Fixing Windows", -300, "POST-SETTLEMENT"⟩,
   ⟨addDays settlement 2, "Bathroom Grouting & Sealing", -1000, "POST-SETTLEMENT"⟩,
   ⟨addDays settlement 2, "2-Week Rent Payment", -1400, "POST-SETTLEMENT"⟩,
   ⟨addDays settlement 3, "Ensuite Bathroom Fixes", -20000, "POST-SETTLEMENT"⟩,
   ⟨moveOut, "Furniture Purchase", -3000, "MOVING"⟩,
   ⟨moveOut, "Removalists", -1200, "MOVING"⟩,
   ⟨⟨2025, 8, 26⟩, "HYKO - Sydney (Day 1)", 0, "HYKO"⟩,
   ⟨⟨2025, 8, 27⟩, "HYKO - Sydney (Day 2)", 0, "HYKO"⟩,
   ⟨⟨2025, 8, 15⟩, "Building Inspection Due", 0, "INSPECTION"⟩,
   ⟨⟨2025, 8, 20⟩, "Insurance Policy Review", 0, "INSURANCE"⟩,
   ⟨subDays settlement 7, "Final Walkthrough", 0, "WALKTHROUGH"⟩,
   ⟨subDays settlement 3, "Pre-Settlement Meeting", 0, "MEETING"⟩,
   ⟨subDays moveOut 1, "Packing Day", 0, "PACKING"⟩,
   ⟨addDays moveOut 1, "Unpacking & Setup", 0, "UNPACKING"⟩] ++
  monthlyIncomeEvents settlement endD (monthsFuel endD) ⟨2025, 8, 1⟩ ++
  mortgageEvents endD (mortgageFuel settlement endD) (addDays settlement 14) 1

/-- Numbered description shown when several events share a date:
`"desc (i+1/n)"`. -/
def eventDesc (desc : String) (i n : ℕ) : String :=
  if 1 < n then desc ++ " (" ++ toString (i + 1) ++ "/" ++ toString n ++ ")" else desc

/-- Apply one event to the running balance: the "Starting Balance" seed
re-seeds the balance to its amount, every other event adds its amount. -/
def applyEvent (bal : ℚ) (e : Event) : ℚ :=
  if e.description = "Starting Balance" then e.amount else bal + e.amount

/-- Emit the rows for one day's event list (`i` is the position within the
day, `n` the day's event count). -/
def processEvents (cur : Date) (wd n : ℕ) : List Event → ℕ → ℚ → List CashFlowRecord × ℚ
  | [], _, bal => ([], bal)
  | e :: rest, i, bal =>
    let bal2 := applyEvent bal e
    let pr := processEvents cur wd n rest (i + 1) bal2
    (⟨cur, wd, e.milestone, eventDesc e.description i n, e.amount, bal2⟩ :: pr.1, pr.2)

/-- Emit the rows for one calendar day: its events in insertion order, or
a single "No transactions" carry-forward row. -/
def processDay (events : List Event) (cur : Date) (bal : ℚ) :
    List CashFlowRecord × ℚ :=
  let evs := events.filter (fun e => e.date = cur)
  if evs.isEmpty then ([⟨cur, weekdayNat cur, "", "No transactions", 0, bal⟩], bal)
  else processEvents cur (weekdayNat cur) evs.length evs 0 bal

/-- The `while current_date <= analysis_end_date` daily sweep, one list of
rows per day. -/
def sweepDays (events : List Event) (endD : Date) : ℕ → Date → ℚ → List (List CashFlowRecord)
  | 0, _, _ => []
  | fuel + 1, cur, bal =>
    if dateLE cur endD then
      let pr := processDay events cur bal
      pr.1 :: sweepDays events endD fuel (nextDay cur) pr.2
    else []

/-- Number of calendar days in the analysis window (fuel for the sweep). -/
def numDays (endD : Date) : ℕ := toRD endD + 1 - toRD analysis_start_date

/-- The daily sweep of a scenario, grouped by day. -/
def dailyBlocks (startBal : ℚ) (settlement endD : Date) : List (List CashFlowRecord) :=
  sweepDays (cash_flow_events startBal settlement (move_out_date settlement) endD) endD
    (numDays endD) analysis_start_date 0

/-- The flat daily cash-flow table of a scenario (`cash_flow_data`). -/
def recordsOf (startBal : ℚ) (settlement endD : Date) : List CashFlowRecord :=
  (dailyBlocks startBal settlement endD).flatten

/-- Sum of the "Amount" column over the rows tagged with milestone `c`. -/
def catSum (recs : List CashFlowRecord) (c : String) : ℚ :=
  ((recs.filter (fun r => r.milestone = c)).map (·.amount)).sum

/-- The `financial_summary` dictionary. -/
structure FinancialSummary where
  final_balance : ℚ
  total_initial_income : ℚ
  total_pre_settlement_income : ℚ
  total_monthly_income : ℚ
  total_settlement_expenses : ℚ
  total_post_settlement : ℚ
  total_moving_expenses : ℚ
  total_mortgage_payments : ℚ
  total_income : ℚ
  total_expenses : ℚ
  net_change : ℚ
  deriving DecidableEq, Repr

/-- Build the financial summary from the daily rows exactly as the source
does: note that `total_initial_income` filters milestone `INCOME` (not
`INITIAL`), and each expense total is the absolute value of its
category's sum. -/
def mkSummary (recs : List CashFlowRecord) : FinancialSummary :=
  let fb := (((recs.getLast?).map (·.runningBalance)).getD 0)
  let ii := catSum recs "INCOME"
  let pre := catSum recs "PRE-SETTLEMENT INCOME"
  let mi := catSum recs "MONTHLY INCOME"
  let se := |catSum recs "SETTLEMENT"|
  let ps := |catSum recs "POST-SETTLEMENT"|
  let mv := |catSum recs "MOVING"|
  let mg := |catSum recs "MORTGAGE"|
  ⟨fb, ii, pre, mi, se, ps, mv, mg, ii + pre + mi, se + ps + mv + mg,
    (ii + pre + mi) - (se + ps + mv + mg)⟩

/-- The financial summary of a scenario. -/
def summaryOf (startBal : ℚ) (settlement endD : Date) : FinancialSummary :=
  mkSummary (recordsOf startBal settlement endD)

/-- The scenario's viability status as rendered by the summary sheet:
`'VIABLE' if financial_summary['final_balance'] >= 0`. -/
def viableStatus (fs : FinancialSummary) : Bool := decide (0 ≤ fs.final_balance)

/-- The full engine.  `none` embeds the uncaught Python exceptions: the
`ValueError` of the window-end `replace` when the target year leaves the
`datetime` range or the settlement's day-of-month does not exist two
months later, and the pandas failure on an empty daily table (window
ending before 31/07/2025). -/
def calculate_moving_plan_analysis (startBal : ℚ) (settlement : Date) :
    Option (List CashFlowRecord × Date × Date × FinancialSummary) :=
  match end_date settlement with
  | none => none
  | some endD =>
    let recs := recordsOf startBal settlement endD
    if recs.isEmpty then none
    else some (recs, move_out_date settlement, endD, summaryOf startBal settlement endD)

/-! ### Window-end and move-out lemmas -/

/-- Year of the calendar month two months after the settlement month. -/
def windowTargetYear (d : Date) : ℕ := if 11 ≤ d.month then d.year + 1 else d.year

/-- The calendar month two months after the settlement month. -/
def windowTargetMonth (d : Date) : ℕ :=
  if 11 ≤ d.month then (if d.month = 11 then 1 else 2) else d.month + 2

theorem end_date_some {d e : Date} (hv : Valid d) (he : end_date d = some e) :
    Valid e ∧ e.day = d.day ∧ e.year = windowTargetYear d ∧ e.month = windowTargetMonth d := by
  obtain ⟨hy, hm1, hm2, hd1, hd2⟩ := hv
  unfold end_date replaceYM at he
  unfold windowTargetYear windowTargetMonth
  split_ifs at he ⊢ with h1 h2 h3 h4 h5 <;>
    simp_all [Option.some.injEq] <;>
    (try subst he) <;>
    simp_all [Valid_mk] <;>
    omega

theorem processEvents_ne_nil (cur : Date) (wd n : ℕ) (evs : List Event) (i : ℕ) (bal : ℚ)
    (h : evs ≠ []) : (processEvents cur wd n evs i bal).1 ≠ [] := by
  cases evs with
  | nil => simp at h
  | cons e rest => simp [processEvents]

theorem analysis_start_date_eq : analysis_start_date = ⟨2025, 7, 31⟩ := rfl

theorem valid_analysis_start_date : Valid analysis_start_date := by decide

/-- Claim C2, counterexample: 06/08/2025 is a Wednesday, and its move-out
date 16/08/2025 is 10 days later, not 11 as claimed. -/
theorem claim2_counterexample :
    weekdayNat ⟨2025, 8, 6⟩ = 2 ∧
    move_out_date ⟨2025, 8, 6⟩ ≠ addDays ⟨2025, 8, 6⟩ 11 ∧
    move_out_date ⟨2025, 8, 6⟩ = addDays ⟨2025, 8, 6⟩ 10 := by
  refine ⟨?_, ?_, ?_⟩ <;> decide

/-- Claim C2, amended: the move-out date is obtained by advancing to the
next Sunday — a Sunday settlement skips to the Sunday a week later — and
then adding 6 days; thus a Wednesday settlement moves out exactly 10 days
later (not 11), and a Sunday settlement exactly 13 days later. -/
theorem claim2_theorem (d : Date) :
    (weekdayNat d = 2 → move_out_date d = addDays d 10) ∧
    (weekdayNat d = 6 → move_out_date d = addDays d 13) ∧
    move_out_date d =
      addDays d ((if (6 - weekdayNat d) % 7 = 0 then 7 else (6 - weekdayNat d) % 7) + 6) := by
  refine ⟨?_, ?_, ?_⟩
  · intro h
    unfold move_out_date
    rw [addDays_addDays, h]
    norm_num
  · intro h
    unfold move_out_date
    rw [addDays_addDays, h]
    norm_num
  · unfold move_out_date
    rw [addDays_addDays]

/-- Claim C2, witness: the amended theorem applied to the Wednesday
06/08/2025 and the Sunday 03/08/2025. -/
theorem claim2_witness :
    weekdayNat ⟨2025, 8, 6⟩ = 2 ∧ weekdayNat ⟨2025, 8, 3⟩ = 6 ∧
    move_out_date ⟨2025, 8, 6⟩ = addDays ⟨2025, 8, 6⟩ 10 ∧
    move_out_date ⟨2025, 8, 3⟩ = addDays ⟨2025, 8, 3⟩ 13 :=
  ⟨by decide, by decide, (claim2_theorem ⟨2025, 8, 6⟩).1 (by decide),
   (claim2_theorem ⟨2025, 8, 3⟩).2.1 (by decide)⟩

/-- Claim C8: both engines are pure functions of their inputs — two runs
on equal inputs produce equal schedules, record sequences and summaries. -/
theorem claim8_theorem :
    (∀ cfg1 cfg2 : LoanConfig, cfg1 = cfg2 →
        calculate_mortgage_schedule cfg1 = calculate_mortgage_schedule cfg2) ∧
    (∀ (b1 b2 : ℚ) (s1 s2 : Date), b1 = b2 → s1 = s2 →
        calculate_moving_plan_analysis b1 s1 = calculate_moving_plan_analysis b2 s2) :=
  ⟨fun _ _ h => by rw [h], fun _ _ _ _ h1 h2 => by rw [h1, h2]⟩

/-- Claim C8, witness: the determinism theorem applied to a concrete loan
configuration and a concrete scenario. -/
theorem claim8_witness :
    calculate_mortgage_schedule payingLoan = calculate_mortgage_schedule payingLoan ∧
    calculate_moving_plan_analysis 93000 start_date =
      calculate_moving_plan_analysis 93000 start_date :=
  ⟨claim8_theorem.1 payingLoan payingLoan rfl,
   claim8_theorem.2 93000 93000 start_date start_date rfl rfl⟩

/-! ### Daily-sweep record lemmas -/

theorem processEvents_dates (cur : Date) (wd n : ℕ) :
    ∀ (evs : List Event) (i : ℕ) (bal : ℚ),
      ∀ r ∈ (processEvents cur wd n evs i bal).1, r.date = cur := by
  intro evs
  induction evs with
  | nil => intro i bal r hr; simp [processEvents] at hr
  | cons ev rest ih =>
    intro i bal r hr
    simp only [processEvents] at hr
    rcases List.mem_cons.mp hr with rfl | hr
    · rfl
    · exact ih _ _ r hr

theorem processDay_dates (events : List Event) (cur : Date) (bal : ℚ) :
    ∀ r ∈ (processDay events cur bal).1, r.date = cur := by
  intro r hr
  simp only [processDay] at hr
  split_ifs at hr
  · simp at hr
    rw [hr]
  · exact processEvents_dates _ _ _ _ _ _ r hr

theorem processEvents_origin (cur : Date) (wd n : ℕ) :
    ∀ (evs : List Event) (i : ℕ) (bal : ℚ),
      ∀ r ∈ (processEvents cur wd n evs i bal).1,
        ∃ e ∈ evs, r.milestone = e.milestone ∧ r.amount = e.amount := by
  intro evs
  induction evs with
  | nil => intro i bal r hr; simp [processEvents] at hr
  | cons ev rest ih =>
    intro i bal r hr
    simp only [processEvents] at hr
    rcases List.mem_cons.mp hr with rfl | hr
    · exact ⟨ev, List.mem_cons_self _ _, rfl, rfl⟩
    · obtain ⟨e, he, h1, h2⟩ := ih _ _ r hr
      exact ⟨e, List.mem_cons_of_mem _ he, h1, h2⟩

theorem processDay_origin (events : List Event) (cur : Date) (bal : ℚ) :
    ∀ r ∈ (processDay events cur bal).1,
      r.milestone = "" ∨
        ∃ e ∈ events, e.date = cur ∧ r.milestone = e.milestone ∧ r.amount = e.amount := by
  intro r hr
  simp only [processDay] at hr
  split_ifs at hr
  · simp at hr
    rw [hr]
    exact Or.inl rfl
  · obtain ⟨e, he, h1, h2⟩ := processEvents_origin _ _ _ _ _ _ r hr
    have := List.mem_filter.mp he
    exact Or.inr ⟨e, this.1, by simpa using this.2, h1, h2⟩

theorem sweep_record_dates (events : List Event) (endD : Date) :
    ∀ (fuel : ℕ) (cur : Date) (bal : ℚ), Valid cur →
      ∀ r ∈ (sweepDays events endD fuel cur bal).flatten,
        Valid r.date ∧ toRD cur ≤ toRD r.date := by
  intro fuel
  induction fuel with
  | zero => intro cur bal hv r hr; simp [sweepDays] at hr
  | succ fuel ih =>
    intro cur bal hv r hr
    simp only [sweepDays] at hr
    split_ifs at hr with hg
    · rw [List.flatten_cons] at hr
      rcases List.mem_append.mp hr with hr | hr
      · have hd := processDay_dates events cur _ r hr
        rw [hd]
        exact ⟨hv, le_refl _⟩
      · have h2 := ih (nextDay cur) _ (valid_nextDay hv) r hr
        have h3 := toRD_nextDay hv
        exact ⟨h2.1, by omega⟩
    · simp at hr

theorem sweep_record_origin (events : List Event) (endD : Date) :
    ∀ (fuel : ℕ) (cur : Date) (bal : ℚ),
      ∀ r ∈ (sweepDays events endD fuel cur bal).flatten,
        r.milestone = "" ∨
          ∃ e ∈ events, e.date = r.date ∧ r.milestone = e.milestone ∧ r.amount = e.amount := by
  intro fuel
  induction fuel with
  | zero => intro cur bal r hr; simp [sweepDays] at hr
  | succ fuel ih =>
    intro cur bal r hr
    simp only [sweepDays] at hr
    split_ifs at hr with hg
    · rw [List.flatten_cons] at hr
      rcases List.mem_append.mp hr with hr | hr
      · rcases processDay_origin events cur _ r hr with h | ⟨e, he, h1, h2, h3⟩
        · exact Or.inl h
        · exact Or.inr ⟨e, he, by rw [processDay_dates events cur _ r hr, h1], h2, h3⟩
      · exact ih (nextDay cur) _ r hr
    · simp at hr

/-! ### Event-schedule characterization lemmas -/

theorem monthlyBody_mem {settlement cur : Date} {e : Event} (h : e ∈ monthlyBody settlement cur) :
    e.date = cur ∧ (e.milestone = "PRE-SETTLEMENT INCOME" ∨ e.milestone = "MONTHLY INCOME") ∧
      e.description ≠ "Starting Balance" := by
  unfold monthlyBody at h
  split_ifs at h with h1 h2 h3
  · exact absurd h (List.not_mem_nil e)
  · simp only [List.mem_append, List.mem_cons, List.not_mem_nil, or_false,
      List.mem_singleton] at h
    rcases h with (rfl | rfl) | rfl <;> exact ⟨rfl, Or.inl rfl, by simp⟩
  · simp only [List.append_nil, List.mem_cons, List.not_mem_nil, or_false,
      List.mem_singleton] at h
    rcases h with rfl | rfl <;> exact ⟨rfl, Or.inl rfl, by simp⟩
  · simp only [List.mem_singleton] at h
    subst h
    exact ⟨rfl, Or.inr rfl, by simp⟩

theorem mem_monthlyIncomeEvents {settlement endD : Date} :
    ∀ {fuel : ℕ} {cur : Date} {e : Event}, e ∈ monthlyIncomeEvents settlement endD fuel cur →
      ∃ c, e ∈ monthlyBody settlement c := by
  intro fuel
  induction fuel with
  | zero => intro cur e h; simp [monthlyIncomeEvents] at h
  | succ fuel ih =>
    intro cur e h
    simp only [monthlyIncomeEvents] at h
    split_ifs at h with hg
    · rcases List.mem_append.mp h with h | h
      · exact ⟨cur, h⟩
      · exact ih h
    · simp at h

theorem mortgage_desc_ne (s : String) : "Mortgage Payment #" ++ s ≠ "Starting Balance" := by
  intro h
  have hlen := congrArg String.length h
  rw [String.length_append] at hlen
  have h1 : ("Mortgage Payment #" : String).length = 18 := by decide
  have h2 : ("Starting Balance" : String).length = 16 := by decide
  omega

theorem mem_mortgageEvents {endD : Date} :
    ∀ {fuel : ℕ} {cur : Date} {n : ℕ} {e : Event}, e ∈ mortgageEvents endD fuel cur n →
      e.milestone = "MORTGAGE" ∧ ∃ k : ℕ, e.description = "Mortgage Payment #" ++ toString k := by
  intro fuel
  induction fuel with
  | zero => intro cur n e h; simp [mortgageEvents] at h
  | succ fuel ih =>
    intro cur n e h
    simp only [mortgageEvents] at h
    split_ifs at h with hg
    · rcases List.mem_cons.mp h with rfl | h
      · exact ⟨rfl, n, rfl⟩
      · exact ih h
    · simp at h

theorem cash_flow_events_cases {startBal : ℚ} {settlement moveOut endD : Date} {e : Event}
    (h : e ∈ cash_flow_events startBal settlement moveOut endD) :
    (e.description = "Starting Balance" → e.date = analysis_start_date) ∧
    (e.milestone = "SETTLEMENT" → e.date = settlement) := by
  simp only [cash_flow_events, List.mem_append, List.mem_cons, List.not_mem_nil, or_false] at h
  rcases h with ((rfl | rfl | rfl | rfl | rfl | rfl | rfl | rfl | rfl | rfl | rfl | rfl | rfl | rfl |
    rfl | rfl | rfl | rfl | rfl | rfl) | hm) | hm
  all_goals try (refine ⟨fun hx => absurd hx ?_, fun hx => absurd hx ?_⟩ <;> simp <;> done)
  all_goals try (refine ⟨fun _ => rfl, fun hx => absurd hx ?_⟩ <;> simp)
  all_goals try (refine ⟨fun hx => absurd hx ?_, fun _ => rfl⟩ <;> simp)
  · obtain ⟨c, hc⟩ := mem_monthlyIncomeEvents hm
    have hb := monthlyBody_mem hc
    refine ⟨fun hx => absurd hx hb.2.2, fun hx => ?_⟩
    rcases hb.2.1 with h1 | h1 <;> rw [h1] at hx <;> exact absurd hx (by simp)
  · obtain ⟨hm1, k, hk⟩ := mem_mortgageEvents hm
    refine ⟨fun hx => absurd (hk ▸ hx) (mortgage_desc_ne _), fun hx => ?_⟩
    rw [hm1] at hx
    exact absurd hx (by simp)

theorem catSum_eq_zero {recs : List CashFlowRecord} {c : String}
    (h : ∀ r ∈ recs, r.milestone ≠ c) : catSum recs c = 0 := by
  unfold catSum
  rw [List.filter_eq_nil_iff.mpr (by simpa using h)]
  rfl

/-- Claim C10: the daily sweep starts at the fixed date 31/07/2025
whatever the settlement date is, so every emitted record is dated on or
after 31/07/2025, no record can correspond to an event scheduled strictly
before that date, and for a settlement strictly before 31/07/2025 the
settlement payment in particular is absent from the records and the
summary's settlement-expense total is 0 instead of 52046. -/
theorem claim10_theorem (startBal : ℚ) (settlement e : Date) (hv : Valid settlement)
    (he : end_date settlement = some e) :
    (∀ r ∈ recordsOf startBal settlement e,
       Valid r.date ∧ dateLE analysis_start_date r.date) ∧
    (∀ r ∈ recordsOf startBal settlement e,
       ∀ ev ∈ cash_flow_events startBal settlement (move_out_date settlement) e,
         Valid ev.date → dateLT ev.date analysis_start_date → r.date ≠ ev.date) ∧
    (dateLT settlement analysis_start_date →
       (∀ r ∈ recordsOf startBal settlement e, r.milestone ≠ "SETTLEMENT") ∧
       (summaryOf startBal settlement e).total_settlement_expenses = 0) := by
  have hdates : ∀ r ∈ recordsOf startBal settlement e,
      Valid r.date ∧ toRD analysis_start_date ≤ toRD r.date := by
    intro r hr
    unfold recordsOf dailyBlocks at hr
    exact sweep_record_dates _ e (numDays e) analysis_start_date 0
      valid_analysis_start_date r hr
  have hnosett : dateLT settlement analysis_start_date →
      ∀ r ∈ recordsOf startBal settlement e, r.milestone ≠ "SETTLEMENT" := by
    intro hlt r hr hmil
    unfold recordsOf dailyBlocks at hr
    rcases sweep_record_origin _ e (numDays e) analysis_start_date 0 r hr with
      h0 | ⟨ev, hev, hdate, hm1, _⟩
    · rw [hmil] at h0
      exact absurd h0 (by simp)
    · have hsd := (cash_flow_events_cases hev).2 (by rw [← hm1, hmil])
      have h1 := (hdates r hr).2
      have h2 := toRD_lt_of_dateLT hv valid_analysis_start_date hlt
      rw [← hdate, hsd] at h1
      omega
  refine ⟨?_, ?_, ?_⟩
  · intro r hr
    have h := hdates r hr
    exact ⟨h.1, (toRD_le_iff valid_analysis_start_date h.1).mpr h.2⟩
  · intro r hr ev hev hvev hlt heq
    have h1 := (hdates r hr).2
    have h2 := toRD_lt_of_dateLT hvev valid_analysis_start_date hlt
    rw [heq] at h1
    omega
  · intro hlt
    refine ⟨hnosett hlt, ?_⟩
    have hz := catSum_eq_zero (hnosett hlt)
    show |catSum (recordsOf startBal settlement e) "SETTLEMENT"| = 0
    rw [hz]
    simp

/-! ### Running-balance recurrence lemmas -/

/-- Closing balance of a day's rows: the running balance of its last row. -/
def blockClose (l : List CashFlowRecord) : ℚ :=
  ((l.getLast?).map (·.runningBalance)).getD 0

/-- Net signed amount of all events scheduled on day `d`. -/
def dayNet (events : List Event) (d : Date) : ℚ :=
  ((events.filter (fun e => e.date = d)).map (·.amount)).sum

theorem processEvents_snd (cur : Date) (wd n : ℕ) :
    ∀ (evs : List Event) (i : ℕ) (bal : ℚ),
      (∀ e ∈ evs, e.description ≠ "Starting Balance") →
      (processEvents cur wd n evs i bal).2 = bal + (evs.map (·.amount)).sum := by
  intro evs
  induction evs with
  | nil => intro i bal _; simp [processEvents]
  | cons ev rest ih =>
    intro i bal h
    simp only [processEvents]
    rw [ih _ _ (fun e he => h e (List.mem_cons_of_mem _ he))]
    unfold applyEvent
    rw [if_neg (h ev (List.mem_cons_self _ _))]
    simp only [List.map_cons, List.sum_cons]
    ring

theorem processEvents_close (cur : Date) (wd n : ℕ) :
    ∀ (evs : List Event) (i : ℕ) (bal : ℚ), evs ≠ [] →
      blockClose (processEvents cur wd n evs i bal).1 =
        (processEvents cur wd n evs i bal).2 := by
  intro evs
  induction evs with
  | nil => intro i bal h; simp at h
  | cons ev rest ih =>
    intro i bal _
    by_cases hrest : rest = []
    · subst hrest
      simp [processEvents, blockClose]
    · have hne := processEvents_ne_nil cur wd n rest (i + 1) (applyEvent bal ev) hrest
      have hi := ih (i + 1) (applyEvent bal ev) hrest
      obtain ⟨x, xs, hxs⟩ := List.exists_cons_of_ne_nil hne
      simp only [processEvents]
      unfold blockClose at hi ⊢
      rw [hxs] at hi ⊢
      rw [List.getLast?_cons_cons]
      exact hi

theorem processDay_close (events : List Event) (cur : Date) (bal : ℚ) :
    blockClose (processDay events cur bal).1 = (processDay events cur bal).2 := by
  simp only [processDay]
  split_ifs with h
  · simp [blockClose]
  · exact processEvents_close _ _ _ _ _ _ (by simpa [List.isEmpty_iff] using h)

theorem processDay_snd (events : List Event) (cur : Date) (bal : ℚ)
    (h : ∀ e ∈ events, e.date = cur → e.description ≠ "Starting Balance") :
    (processDay events cur bal).2 = bal + dayNet events cur := by
  simp only [processDay]
  split_ifs with hem
  · have hnil : events.filter (fun e => e.date = cur) = [] := List.isEmpty_iff.mp hem
    simp [dayNet, hnil]
  · rw [processEvents_snd]
    · rfl
    · intro e he
      have hm := List.mem_filter.mp he
      exact h e hm.1 (by simpa using hm.2)

theorem addDays_one (d : Date) : addDays d 1 = nextDay d := rfl

theorem sweep_chain (events : List Event) (endD : Date) :
    ∀ (fuel : ℕ) (cur : Date) (bal : ℚ), Valid cur →
      (∀ e ∈ events, e.description = "Starting Balance" → toRD e.date ≤ toRD cur) →
      ∀ i : ℕ, i + 1 < (sweepDays events endD fuel cur bal).length →
        blockClose ((sweepDays events endD fuel cur bal).getD (i + 1) []) =
          blockClose ((sweepDays events endD fuel cur bal).getD i []) +
            dayNet events (addDays cur (i + 1)) := by
  intro fuel
  induction fuel with
  | zero => intro cur bal _ _ i hi; simp [sweepDays] at hi
  | succ fuel ih =>
    intro cur bal hv hnr i hi
    have hnr2 : ∀ e ∈ events, e.description = "Starting Balance" →
        toRD e.date ≤ toRD (nextDay cur) := by
      intro e he hd
      have := hnr e he hd
      have h2 := toRD_nextDay hv
      omega
    simp only [sweepDays] at hi ⊢
    split_ifs at hi ⊢ with hg
    · cases i with
      | zero =>
        simp only [List.length_cons] at hi
        rw [List.getD_cons_succ, List.getD_cons_zero]
        cases fuel with
        | zero => simp [sweepDays] at hi
        | succ f2 =>
          simp only [sweepDays] at hi ⊢
          split_ifs at hi ⊢ with hg2
          · rw [List.getD_cons_zero, processDay_close, processDay_close]
            rw [processDay_snd events (nextDay cur) _ ?_]
            · rw [addDays_one]
            · intro e he hd hdesc
              have h1 := hnr2 e he hdesc
              rw [hd, toRD_nextDay hv] at h1
              have h2 := hnr e he hdesc
              rw [hd, toRD_nextDay hv] at h2
              omega
          · simp at hi
      | succ j =>
        rw [List.getD_cons_succ, List.getD_cons_succ]
        have hrec := ih (nextDay cur) (processDay events cur bal).2 (valid_nextDay hv) hnr2 j
          (by simpa using hi)
        rw [hrec]
        have : addDays (nextDay cur) (j + 1) = addDays cur (j + 1 + 1) := by
          rw [← addDays_one cur, addDays_addDays]
          ring_nf
        rw [this]
    · simp at hi

/-- The first row of a scenario's daily table, when it exists, is the
"Starting Balance" seed: its amount and its running balance are both the
starting balance (the balance is re-seeded, not added to the initial 0). -/
theorem recordsOf_head (startBal : ℚ) (settlement e : Date) :
    ∀ r, (recordsOf startBal settlement e).head? = some r →
      r.runningBalance = startBal ∧ r.amount = startBal ∧ r.milestone = "INITIAL" := by
  intro r hr
  unfold recordsOf dailyBlocks at hr
  cases hnum : numDays e with
  | zero => rw [hnum] at hr; simp [sweepDays] at hr
  | succ f =>
    rw [hnum] at hr
    simp only [sweepDays] at hr
    split_ifs at hr with hg
    · rw [List.flatten_cons] at hr
      obtain ⟨tail, htail⟩ : ∃ tail,
          (cash_flow_events startBal settlement (move_out_date settlement) e).filter
              (fun ev => ev.date = analysis_start_date) =
            (⟨analysis_start_date, "Starting Balance", startBal, "INITIAL"⟩ : Event) :: tail := by
        simp only [cash_flow_events]
        rw [List.append_assoc, List.filter_append, List.filter_cons_of_pos (by simp)]
        exact ⟨_, List.cons_append _ _ _⟩
      simp only [processDay] at hr
      rw [htail] at hr
      simp only [List.isEmpty_cons, Bool.false_eq_true, if_false, processEvents, applyEvent] at hr
      simp only [List.cons_append, List.head?_cons, Option.some.injEq] at hr
      rw [← hr]
      refine ⟨?_, rfl, rfl⟩
      simp
    · simp at hr

/-- Claim C5: in the daily sweep the first emitted row re-seeds the
running balance to the starting balance, and for every later day the
closing balance equals the previous day's closing balance plus the net
signed amount of that day's events (days without events carry the balance
forward unchanged, their net being 0). -/
theorem claim5_theorem (startBal : ℚ) (settlement e : Date) (hv : Valid settlement)
    (he : end_date settlement = some e) :
    (∀ r, (recordsOf startBal settlement e).head? = some r →
        r.runningBalance = startBal ∧ r.amount = startBal ∧ r.milestone = "INITIAL") ∧
    (∀ i : ℕ, i + 1 < (dailyBlocks startBal settlement e).length →
        blockClose ((dailyBlocks startBal settlement e).getD (i + 1) []) =
          blockClose ((dailyBlocks startBal settlement e).getD i []) +
            dayNet (cash_flow_events startBal settlement (move_out_date settlement) e)
              (addDays analysis_start_date (i + 1))) := by
  refine ⟨recordsOf_head startBal settlement e, ?_⟩
  intro i hi
  unfold dailyBlocks at hi ⊢
  refine sweep_chain _ e (numDays e) analysis_start_date 0 valid_analysis_start_date ?_ i hi
  intro ev hev hdesc
  rw [(cash_flow_events_cases hev).1 hdesc]

/-- Claim C5, witness: the recurrence applied to the scenario with
settlement 01/08/2025 and starting balance 93000. -/
theorem claim5_witness :
    Valid start_date ∧
    ((∀ r, (recordsOf 93000 start_date ⟨2025, 10, 1⟩).head? = some r →
        r.runningBalance = 93000 ∧ r.amount = 93000 ∧ r.milestone = "INITIAL") ∧
     (∀ i : ℕ, i + 1 < (dailyBlocks 93000 start_date ⟨2025, 10, 1⟩).length →
        blockClose ((dailyBlocks 93000 start_date ⟨2025, 10, 1⟩).getD (i + 1) []) =
          blockClose ((dailyBlocks 93000 start_date ⟨2025, 10, 1⟩).getD i []) +
            dayNet (cash_flow_events 93000 start_date (move_out_date start_date) ⟨2025, 10, 1⟩)
              (addDays analysis_start_date (i + 1)))) :=
  ⟨by decide, claim5_theorem 93000 start_date ⟨2025, 10, 1⟩ (by decide) (by decide)⟩

/-! ### Category-sum correspondence lemmas -/

/-- Sum of the amounts of the events of category `c` dated inside
`[lo, hi]`. -/
def eventCatSumWindow (events : List Event) (lo hi : Date) (c : String) : ℚ :=
  ((events.filter
      (fun e => e.milestone = c ∧ dateLE lo e.date ∧ dateLE e.date hi)).map (·.amount)).sum

theorem catSum_nil (c : String) : catSum [] c = 0 := rfl

theorem catSum_cons (r : CashFlowRecord) (recs : List CashFlowRecord) (c : String) :
    catSum (r :: recs) c = (if r.milestone = c then r.amount else 0) + catSum recs c := by
  unfold catSum
  rw [List.filter_cons]
  by_cases h : r.milestone = c <;> simp [h]

theorem catSum_append (l1 l2 : List CashFlowRecord) (c : String) :
    catSum (l1 ++ l2) c = catSum l1 c + catSum l2 c := by
  unfold catSum
  rw [List.filter_append, List.map_append, List.sum_append]

theorem sum_filter_split (l : List Event) (p q pq : Event → Prop)
    [DecidablePred p] [DecidablePred q] [DecidablePred pq]
    (h : ∀ e ∈ l, (pq e ↔ (p e ∨ q e)) ∧ ¬(p e ∧ q e)) :
    ((l.filter (fun e => decide (pq e))).map (·.amount)).sum =
      ((l.filter (fun e => decide (p e))).map (·.amount)).sum +
        ((l.filter (fun e => decide (q e))).map (·.amount)).sum := by
  induction l with
  | nil => simp
  | cons e rest ih =>
    have hh := h e (List.mem_cons_self _ _)
    have ih2 := ih (fun x hx => h x (List.mem_cons_of_mem _ hx))
    by_cases hp : p e <;> by_cases hq : q e
    · exact absurd ⟨hp, hq⟩ hh.2
    · have hpq : pq e := hh.1.mpr (Or.inl hp)
      simp [List.filter_cons, hp, hq, hpq, ih2]
      ring
    · have hpq : pq e := hh.1.mpr (Or.inr hq)
      simp [List.filter_cons, hp, hq, hpq, ih2]
      ring
    · have hpq : ¬pq e := fun hx => (hh.1.mp hx).elim hp hq
      simp [List.filter_cons, hp, hq, hpq, ih2]

theorem processEvents_catSum (cur : Date) (wd n : ℕ) (c : String) :
    ∀ (evs : List Event) (i : ℕ) (bal : ℚ),
      catSum (processEvents cur wd n evs i bal).1 c =
        ((evs.filter (fun e => e.milestone = c)).map (·.amount)).sum := by
  intro evs
  induction evs with
  | nil => intro i bal; simp [processEvents, catSum_nil]
  | cons ev rest ih =>
    intro i bal
    simp only [processEvents]
    rw [catSum_cons, ih, List.filter_cons]
    by_cases h : ev.milestone = c <;> simp [h]

theorem processDay_catSum (events : List Event) (cur : Date) (bal : ℚ) (c : String)
    (hc : c ≠ "") :
    catSum (processDay events cur bal).1 c =
      ((events.filter (fun e => e.date = cur ∧ e.milestone = c)).map (·.amount)).sum := by
  simp only [processDay]
  split_ifs with hem
  · have hnil := List.isEmpty_iff.mp hem
    have h2 : events.filter (fun e => e.date = cur ∧ e.milestone = c) = [] := by
      rw [List.filter_eq_nil_iff]
      intro e he
      simp only [decide_eq_true_eq, not_and]
      intro hd _
      exact absurd (by simpa using (List.filter_eq_nil_iff.mp hnil) e he) (by simp [hd])
    rw [h2, catSum_cons, catSum_nil, if_neg (fun hx => hc hx.symm)]
    simp
  · rw [processEvents_catSum, List.filter_filter]
    congr 1
    congr 1
    apply List.filter_congr
    intro e _
    simp only [Bool.decide_and]
    rw [Bool.and_comm]

theorem sweep_catSum (events : List Event) (endD : Date) (hve : Valid endD) (c : String)
    (hc : c ≠ "") (hval : ∀ e ∈ events, e.milestone = c → Valid e.date) :
    ∀ (fuel : ℕ) (cur : Date) (bal : ℚ), Valid cur →
      toRD endD + 1 ≤ toRD cur + fuel →
      catSum (sweepDays events endD fuel cur bal).flatten c =
        ((events.filter
            (fun e => e.milestone = c ∧ dateLE cur e.date ∧ dateLE e.date endD)).map
          (·.amount)).sum := by
  intro fuel
  induction fuel with
  | zero =>
    intro cur bal hv hfuel
    have hnil : events.filter
        (fun e => e.milestone = c ∧ dateLE cur e.date ∧ dateLE e.date endD) = [] := by
      rw [List.filter_eq_nil_iff]
      intro e he
      simp only [decide_eq_true_eq, not_and]
      intro hm hlo hhi
      have hvd := hval e he hm
      have h1 := (toRD_le_iff hv hvd).mp hlo
      have h2 := (toRD_le_iff hvd hve).mp hhi
      omega
    rw [hnil]
    simp [sweepDays, catSum_nil]
  | succ fuel ih =>
    intro cur bal hv hfuel
    simp only [sweepDays]
    split_ifs with hg
    · rw [List.flatten_cons, catSum_append, processDay_catSum events cur _ c hc,
        ih (nextDay cur) _ (valid_nextDay hv) (by have := toRD_nextDay hv; omega)]
      rw [← sum_filter_split events
        (fun e => e.date = cur ∧ e.milestone = c)
        (fun e => e.milestone = c ∧ dateLE (nextDay cur) e.date ∧ dateLE e.date endD)
        (fun e => e.milestone = c ∧ dateLE cur e.date ∧ dateLE e.date endD) ?_]
      intro e he
      by_cases hm : e.milestone = c
      · have hvd := hval e he hm
        have hvn := valid_nextDay hv
        have hrdn := toRD_nextDay hv
        constructor
        · constructor
          · rintro ⟨-, hlo, hhi⟩
            have h1 := (toRD_le_iff hv hvd).mp hlo
            rcases Nat.eq_or_lt_of_le h1 with h2 | h2
            · exact Or.inl ⟨toRD_inj hvd hv h2.symm, hm⟩
            · exact Or.inr ⟨hm, (toRD_le_iff hvn hvd).mpr (by omega), hhi⟩
          · rintro (⟨hd, -⟩ | ⟨-, hlo, hhi⟩)
            · subst hd
              exact ⟨hm, Or.inr rfl, hg⟩
            · refine ⟨hm, (toRD_le_iff hv hvd).mpr ?_, hhi⟩
              have := (toRD_le_iff hvn hvd).mp hlo
              omega
        · rintro ⟨⟨hd, -⟩, -, hlo, -⟩
          have := (toRD_le_iff hvn hvd).mp hlo
          rw [hd] at this
          omega
      · constructor
        · constructor
          · rintro ⟨hx, -⟩
            exact absurd hx hm
          · rintro (⟨-, hx⟩ | ⟨hx, -⟩) <;> exact absurd hx hm
        · rintro ⟨⟨-, hx⟩, -⟩
          exact absurd hx hm
    · have hnil : events.filter
          (fun e => e.milestone = c ∧ dateLE cur e.date ∧ dateLE e.date endD) = [] := by
        rw [List.filter_eq_nil_iff]
        intro e he
        simp only [decide_eq_true_eq, not_and]
        intro hm hlo hhi
        have hvd := hval e he hm
        have h1 := (toRD_le_iff hv hvd).mp hlo
        have h2 := (toRD_le_iff hvd hve).mp hhi
        exact hg ((toRD_le_iff hv hve).mpr (by omega))
      rw [hnil]
      simp [catSum_nil]

theorem valid_move_out {settlement : Date} (hv : Valid settlement) :
    Valid (move_out_date settlement) :=
  valid_addDays (valid_addDays hv _) 6

theorem valid_nextMonth {d : Date} (hv : Valid d) : Valid (nextMonth d) := by
  rcases d with ⟨y, m, day⟩
  rw [Valid_mk] at hv
  obtain ⟨hy, hm1, hm2, _, _⟩ := hv
  have hp1 : 1 ≤ daysInMonth (y + 1) 1 := daysInMonth_pos _ _
  have hp2 : 1 ≤ daysInMonth y (m + 1) := daysInMonth_pos _ _
  unfold nextMonth
  dsimp only
  split_ifs with h <;> rw [Valid_mk] <;> omega

theorem monthly_dates_valid {settlement endD : Date} :
    ∀ {fuel : ℕ} {cur : Date}, Valid cur →
      ∀ e ∈ monthlyIncomeEvents settlement endD fuel cur, Valid e.date := by
  intro fuel
  induction fuel with
  | zero => intro cur _ e h; simp [monthlyIncomeEvents] at h
  | succ fuel ih =>
    intro cur hv e h
    simp only [monthlyIncomeEvents] at h
    split_ifs at h with hg
    · rcases List.mem_append.mp h with h | h
      · rw [(monthlyBody_mem h).1]
        exact hv
      · exact ih (valid_nextMonth hv) e h
    · simp at h

theorem mortgage_dates_valid {endD : Date} :
    ∀ {fuel : ℕ} {cur : Date} {n : ℕ}, Valid cur →
      ∀ e ∈ mortgageEvents endD fuel cur n, Valid e.date := by
  intro fuel
  induction fuel with
  | zero => intro cur n _ e h; simp [mortgageEvents] at h
  | succ fuel ih =>
    intro cur n hv e h
    simp only [mortgageEvents] at h
    split_ifs at h with hg
    · rcases List.mem_cons.mp h with rfl | h
      · exact hv
      · exact ih (valid_addDays hv 14) e h
    · simp at h

/-- Every event whose milestone is not one of the three milestones
scheduled backwards in time (walkthrough, meeting, packing) carries a
valid calendar date whenever the settlement date is valid. -/
theorem cash_flow_events_valid_dates {startBal : ℚ} {settlement endD : Date} {e : Event}
    (hv : Valid settlement)
    (h : e ∈ cash_flow_events startBal settlement (move_out_date settlement) endD)
    (h1 : e.milestone ≠ "WALKTHROUGH") (h2 : e.milestone ≠ "MEETING")
    (h3 : e.milestone ≠ "PACKING") : Valid e.date := by
  simp only [cash_flow_events, List.mem_append, List.mem_cons, List.not_mem_nil, or_false] at h
  rcases h with ((rfl | rfl | rfl | rfl | rfl | rfl | rfl | rfl | rfl | rfl | rfl | rfl | rfl |
    rfl | rfl | rfl | rfl | rfl | rfl | rfl) | hm) | hm
  all_goals try dsimp only
  · exact valid_analysis_start_date
  · decide
  · decide
  · decide
  · exact hv
  · exact valid_addDays hv 1
  · exact valid_addDays hv 1
  · exact valid_addDays hv 2
  · exact valid_addDays hv 2
  · exact valid_addDays hv 3
  · exact valid_move_out hv
  · exact valid_move_out hv
  · decide
  · decide
  · decide
  · decide
  · exact absurd rfl h1
  · exact absurd rfl h2
  · exact absurd rfl h3
  · exact valid_addDays (valid_move_out hv) 1
  · exact monthly_dates_valid (by decide) e hm
  · exact mortgage_dates_valid (valid_addDays hv 14) e hm

set_option maxRecDepth 100000 in
unseal Rat.add Rat.sub Rat.mul Rat.inv in
/-- Claim C6, counterexample: for the scenario with settlement 01/08/2025
and starting balance 93000 the summary's total income is 23922 (the sum
over INCOME, PRE-SETTLEMENT INCOME and MONTHLY INCOME only) whereas the
claimed formula also adds the 93000 INITIAL seed, giving 116922. -/
theorem claim6_counterexample :
    (summaryOf 93000 start_date ⟨2025, 10, 1⟩).total_income ≠
      eventCatSumWindow (cash_flow_events 93000 start_date (move_out_date start_date)
          ⟨2025, 10, 1⟩) analysis_start_date ⟨2025, 10, 1⟩ "INITIAL" +
        eventCatSumWindow (cash_flow_events 93000 start_date (move_out_date start_date)
          ⟨2025, 10, 1⟩) analysis_start_date ⟨2025, 10, 1⟩ "INCOME" +
        eventCatSumWindow (cash_flow_events 93000 start_date (move_out_date start_date)
          ⟨2025, 10, 1⟩) analysis_start_date ⟨2025, 10, 1⟩ "PRE-SETTLEMENT INCOME" +
        eventCatSumWindow (cash_flow_events 93000 start_date (move_out_date start_date)
          ⟨2025, 10, 1⟩) analysis_start_date ⟨2025, 10, 1⟩ "MONTHLY INCOME" := by
  decide

set_option maxRecDepth 4000 in
/-- Claim C6, amended: the summary's total income is the sum of the event
amounts of the categories INCOME, PRE-SETTLEMENT INCOME and MONTHLY
INCOME inside the analysis window (the INITIAL seed is not part of it,
despite the field name `total_initial_income` which actually sums the
INCOME category); total expenses is the sum of the absolute values of the
SETTLEMENT, POST-SETTLEMENT, MOVING and MORTGAGE category sums; net
change is income minus expenses; the final balance is the last record's
running balance; and the scenario is viable iff that final balance is
non-negative. -/
theorem claim6_theorem (startBal : ℚ) (settlement e : Date) (hv : Valid settlement)
    (he : end_date settlement = some e) :
    ((summaryOf startBal settlement e).total_income =
        eventCatSumWindow (cash_flow_events startBal settlement (move_out_date settlement) e)
            analysis_start_date e "INCOME" +
          eventCatSumWindow (cash_flow_events startBal settlement (move_out_date settlement) e)
            analysis_start_date e "PRE-SETTLEMENT INCOME" +
          eventCatSumWindow (cash_flow_events startBal settlement (move_out_date settlement) e)
            analysis_start_date e "MONTHLY INCOME") ∧
    ((summaryOf startBal settlement e).total_expenses =
        |eventCatSumWindow (cash_flow_events startBal settlement (move_out_date settlement) e)
            analysis_start_date e "SETTLEMENT"| +
          |eventCatSumWindow (cash_flow_events startBal settlement (move_out_date settlement) e)
            analysis_start_date e "POST-SETTLEMENT"| +
          |eventCatSumWindow (cash_flow_events startBal settlement (move_out_date settlement) e)
            analysis_start_date e "MOVING"| +
          |eventCatSumWindow (cash_flow_events startBal settlement (move_out_date settlement) e)
            analysis_start_date e "MORTGAGE"|) ∧
    ((summaryOf startBal settlement e).net_change =
        (summaryOf startBal settlement e).total_income -
          (summaryOf startBal settlement e).total_expenses) ∧
    ((summaryOf startBal settlement e).final_balance =
        (((recordsOf startBal settlement e).getLast?).map (·.runningBalance)).getD 0) ∧
    (viableStatus (summaryOf startBal settlement e) = true ↔
        0 ≤ (summaryOf startBal settlement e).final_balance) := by
  have hve := (end_date_some hv he).1
  have hcat : ∀ c : String, c ≠ "" →
      (∀ ev ∈ cash_flow_events startBal settlement (move_out_date settlement) e,
        ev.milestone = c → Valid ev.date) →
      catSum (recordsOf startBal settlement e) c =
        eventCatSumWindow (cash_flow_events startBal settlement (move_out_date settlement) e)
          analysis_start_date e c := by
    intro c hc hvalc
    unfold recordsOf dailyBlocks eventCatSumWindow
    refine sweep_catSum _ e hve c hc hvalc (numDays e) analysis_start_date 0
      valid_analysis_start_date ?_
    unfold numDays
    omega
  have hmoney : ∀ c : String, c ≠ "WALKTHROUGH" → c ≠ "MEETING" → c ≠ "PACKING" →
      ∀ ev ∈ cash_flow_events startBal settlement (move_out_date settlement) e,
        ev.milestone = c → Valid ev.date := by
    intro c hw hme hp ev hev hm
    exact cash_flow_events_valid_dates hv hev (by rw [hm]; exact hw) (by rw [hm]; exact hme)
      (by rw [hm]; exact hp)
  refine ⟨?_, ?_, rfl, ?_, by simp [viableStatus]⟩
  · show catSum (recordsOf startBal settlement e) "INCOME" +
        catSum (recordsOf startBal settlement e) "PRE-SETTLEMENT INCOME" +
        catSum (recordsOf startBal settlement e) "MONTHLY INCOME" = _
    rw [hcat "INCOME" (by decide) (hmoney _ (by decide) (by decide) (by decide)),
      hcat "PRE-SETTLEMENT INCOME" (by decide) (hmoney _ (by decide) (by decide) (by decide)),
      hcat "MONTHLY INCOME" (by decide) (hmoney _ (by decide) (by decide) (by decide))]
  · show |catSum (recordsOf startBal settlement e) "SETTLEMENT"| +
        |catSum (recordsOf startBal settlement e) "POST-SETTLEMENT"| +
        |catSum (recordsOf startBal settlement e) "MOVING"| +
        |catSum (recordsOf startBal settlement e) "MORTGAGE"| = _
    rw [hcat "SETTLEMENT" (by decide) (hmoney _ (by decide) (by decide) (by decide)),
      hcat "POST-SETTLEMENT" (by decide) (hmoney _ (by decide) (by decide) (by decide)),
      hcat "MOVING" (by decide) (hmoney _ (by decide) (by decide) (by decide)),
      hcat "MORTGAGE" (by decide) (hmoney _ (by decide) (by decide) (by decide))]
  · simp only [summaryOf, mkSummary]

/-- Claim C6, witness: the amended summary equations applied to the
scenario with settlement 01/08/2025 and starting balance 93000. -/
theorem claim6_witness :
    Valid start_date ∧
    (summaryOf 93000 start_date ⟨2025, 10, 1⟩).net_change =
      (summaryOf 93000 start_date ⟨2025, 10, 1⟩).total_income -
        (summaryOf 93000 start_date ⟨2025, 10, 1⟩).total_expenses :=
  ⟨by decide, (claim6_theorem 93000 start_date ⟨2025, 10, 1⟩ (by decide) (by decide)).2.2.1⟩

/-- Claim C10, witness: a settlement on 15/07/2025 (before the sweep
start) whose -52046 settlement payment leaves no trace in the summary. -/
theorem claim10_witness :
    (summaryOf 93000 ⟨2025, 7, 15⟩ ⟨2025, 9, 15⟩).total_settlement_expenses = 0 :=
  ((claim10_theorem 93000 ⟨2025, 7, 15⟩ ⟨2025, 9, 15⟩ (by decide) (by decide)).2.2
    (by decide)).2

theorem dateLE_trans {a b c : Date} (h1 : dateLE a b) (h2 : dateLE b c) : dateLE a c := by
  rcases a with ⟨ay, am, ad⟩
  rcases b with ⟨b1, bm, bd⟩
  rcases c with ⟨cy, cm, cd⟩
  simp only [dateLE, dateLT, Date.mk.injEq] at h1 h2 ⊢
  omega

theorem day1_dateLE {y0 m0 y m : ℕ} (h1 : 1 ≤ m0) (h2 : m0 ≤ 12) (h3 : 1 ≤ m) (h4 : m ≤ 12)
    (hle : y0 * 12 + m0 ≤ y * 12 + m) : dateLE ⟨y0, m0, 1⟩ ⟨y, m, 1⟩ := by
  simp only [dateLE, dateLT, Date.mk.injEq, and_true]
  omega

theorem day1_monthIdx_le {y m : ℕ} {endD : Date} (hm2 : m ≤ 12) (hv : Valid endD)
    (h : dateLE ⟨y, m, 1⟩ endD) : y * 12 + m ≤ monthIdx endD := by
  rcases endD with ⟨ey, em, ed⟩
  rw [Valid_mk] at hv
  simp only [dateLE, dateLT, monthIdx, Date.mk.injEq, and_true] at h ⊢
  omega

theorem monthly_dates_lower {settlement endD : Date} :
    ∀ {fuel : ℕ} {y0 m0 : ℕ} {e : Event}, 1 ≤ m0 → m0 ≤ 12 →
      e ∈ monthlyIncomeEvents settlement endD fuel ⟨y0, m0, 1⟩ →
      ∃ y1 m1 : ℕ, e.date = ⟨y1, m1, 1⟩ ∧ 1 ≤ m1 ∧ m1 ≤ 12 ∧
        y0 * 12 + m0 ≤ y1 * 12 + m1 := by
  intro fuel
  induction fuel with
  | zero => intro y0 m0 e _ _ h; simp [monthlyIncomeEvents] at h
  | succ fuel ih =>
    intro y0 m0 e hm1 hm2 h
    simp only [monthlyIncomeEvents] at h
    split_ifs at h with hg
    · rcases List.mem_append.mp h with h | h
      · exact ⟨y0, m0, (monthlyBody_mem h).1, hm1, hm2, le_refl _⟩
      · by_cases h12 : m0 = 12
        · rw [show nextMonth ⟨y0, m0, 1⟩ = ⟨y0 + 1, 1, 1⟩ from by simp [nextMonth, h12]] at h
          obtain ⟨y1, m1, hd, hb1, hb2, hle⟩ := ih (le_refl 1) (by omega) h
          exact ⟨y1, m1, hd, hb1, hb2, by omega⟩
        · rw [show nextMonth ⟨y0, m0, 1⟩ = ⟨y0, m0 + 1, 1⟩ from by simp [nextMonth, h12]] at h
          obtain ⟨y1, m1, hd, hb1, hb2, hle⟩ := ih (by omega) (by omega) h
          exact ⟨y1, m1, hd, hb1, hb2, by omega⟩
    · simp at h

theorem monthlyIncomeEvents_filter {settlement endD : Date} :
    ∀ (fuel : ℕ) (y0 m0 y m : ℕ), 1 ≤ m0 → m0 ≤ 12 → 1 ≤ m → m ≤ 12 →
      monthIdx ⟨y0, m0, 1⟩ ≤ monthIdx ⟨y, m, 1⟩ →
      dateLE ⟨y, m, 1⟩ endD →
      monthIdx ⟨y, m, 1⟩ < monthIdx ⟨y0, m0, 1⟩ + fuel →
      (monthlyIncomeEvents settlement endD fuel ⟨y0, m0, 1⟩).filter
          (fun e => e.date = ⟨y, m, 1⟩) = monthlyBody settlement ⟨y, m, 1⟩ := by
  intro fuel
  induction fuel with
  | zero =>
    intro y0 m0 y m h1 h2 h3 h4 hle hend hfuel
    simp only [monthIdx] at hle hfuel
    omega
  | succ fuel ih =>
    intro y0 m0 y m h1 h2 h3 h4 hle hend hfuel
    have hle2 : y0 * 12 + m0 ≤ y * 12 + m := by simpa [monthIdx] using hle
    have hfuel2 : y * 12 + m < y0 * 12 + m0 + (fuel + 1) := by simpa [monthIdx] using hfuel
    have hguard : dateLE ⟨y0, m0, 1⟩ endD :=
      dateLE_trans (day1_dateLE h1 h2 h3 h4 hle2) hend
    simp only [monthlyIncomeEvents]
    rw [if_pos hguard, List.filter_append]
    by_cases heq : (⟨y0, m0, 1⟩ : Date) = ⟨y, m, 1⟩
    · rw [heq]
      have hbody : (monthlyBody settlement ⟨y, m, 1⟩).filter
          (fun e => e.date = ⟨y, m, 1⟩) = monthlyBody settlement ⟨y, m, 1⟩ :=
        List.filter_eq_self.mpr (fun e he => by simp [(monthlyBody_mem he).1])
      have htail : (monthlyIncomeEvents settlement endD fuel (nextMonth ⟨y, m, 1⟩)).filter
          (fun e => e.date = ⟨y, m, 1⟩) = [] := by
        refine List.filter_eq_nil_iff.mpr ?_
        intro e he
        by_cases h12 : m = 12
        · rw [show nextMonth ⟨y, m, 1⟩ = ⟨y + 1, 1, 1⟩ from by simp [nextMonth, h12]] at he
          obtain ⟨y1, m1, hd, hb1, hb2, hle3⟩ := monthly_dates_lower (le_refl 1) (by omega) he
          rw [hd]
          simp only [decide_eq_true_eq, Date.mk.injEq]
          rintro ⟨rfl, rfl, -⟩
          omega
        · rw [show nextMonth ⟨y, m, 1⟩ = ⟨y, m + 1, 1⟩ from by simp [nextMonth, h12]] at he
          obtain ⟨y1, m1, hd, hb1, hb2, hle3⟩ := monthly_dates_lower (by omega) (by omega) he
          rw [hd]
          simp only [decide_eq_true_eq, Date.mk.injEq]
          rintro ⟨rfl, rfl, -⟩
          omega
      rw [hbody, htail, List.append_nil]
    · have hlt : y0 * 12 + m0 < y * 12 + m := by
        rcases lt_or_eq_of_le hle2 with h | h
        · exact h
        · exfalso
          apply heq
          have hy : y0 = y ∧ m0 = m := by omega
          rw [hy.1, hy.2]
      have hbody0 : (monthlyBody settlement ⟨y0, m0, 1⟩).filter
          (fun e => e.date = ⟨y, m, 1⟩) = [] := by
        refine List.filter_eq_nil_iff.mpr ?_
        intro e he
        rw [(monthlyBody_mem he).1]
        simp [heq]
      rw [hbody0, List.nil_append]
      by_cases h12 : m0 = 12
      · rw [show nextMonth ⟨y0, m0, 1⟩ = ⟨y0 + 1, 1, 1⟩ from by simp [nextMonth, h12]]
        exact ih (y0 + 1) 1 y m (le_refl 1) (by omega) h3 h4
          (by simp only [monthIdx]; omega) hend (by simp only [monthIdx]; omega)
      · rw [show nextMonth ⟨y0, m0, 1⟩ = ⟨y0, m0 + 1, 1⟩ from by simp [nextMonth, h12]]
        exact ih y0 (m0 + 1) y m (by omega) (by omega) h3 h4
          (by simp only [monthIdx]; omega) hend (by simp only [monthIdx]; omega)

set_option maxRecDepth 8000 in
unseal Rat.add Rat.sub Rat.mul Rat.inv in
/-- Claim C7, counterexample: with settlement 01/08/2025 the anchor month
August 2025 lies on/after the settlement date, so the claim requires the
single combined 8261 income event dated 01/08/2025; the loop skips the
month equal to `income_date` = 01/08/2025 entirely, so August receives no
monthly event at all, while September does receive the 8261 event. -/
theorem claim7_counterexample :
    ¬ dateLT ⟨2025, 8, 1⟩ start_date ∧
    (monthlyIncomeEvents start_date ⟨2025, 10, 1⟩ (monthsFuel ⟨2025, 10, 1⟩)
        ⟨2025, 8, 1⟩).filter (fun e => e.date = ⟨2025, 8, 1⟩) = [] ∧
    ((monthlyIncomeEvents start_date ⟨2025, 10, 1⟩ (monthsFuel ⟨2025, 10, 1⟩)
        ⟨2025, 8, 1⟩).filter (fun e => e.date = ⟨2025, 9, 1⟩)).map
        (fun e => e.amount) = [8261] := by
  decide

/-- Claim C7, amended: for every calendar month from August 2025 through
the window end, the monthly-income loop generates: nothing at all for the
month equal to `income_date` (August 2025, which instead gets the three
fixed INCOME savings events outside the loop); the two fixed savings
amounts 5700 and 500 for months strictly before the settlement date (the
extra 1200 branch is unreachable, because the only August-2025 month date
is skipped); and the single combined 8261 amount for months on/after the
settlement date. -/
theorem claim7_theorem (settlement endD : Date) (y m : ℕ) (hvend : Valid endD)
    (hm1 : 1 ≤ m) (hm2 : m ≤ 12)
    (hanchor : 2025 * 12 + 8 ≤ y * 12 + m)
    (hend : dateLE ⟨y, m, 1⟩ endD) :
    (monthlyIncomeEvents settlement endD (monthsFuel endD) ⟨2025, 8, 1⟩).filter
        (fun e => e.date = ⟨y, m, 1⟩) =
      if (⟨y, m, 1⟩ : Date) = income_date then []
      else if dateLT ⟨y, m, 1⟩ settlement then
        [⟨⟨y, m, 1⟩, "Monthly Savings #1 (Pre-Settlement)", 5700, "PRE-SETTLEMENT INCOME"⟩,
         ⟨⟨y, m, 1⟩, "Monthly Savings #2 (Pre-Settlement)", 500, "PRE-SETTLEMENT INCOME"⟩]
      else
        [⟨⟨y, m, 1⟩, "Monthly Income (Post-Settlement - Mortgage Allocation + Savings)",
          8261, "MONTHLY INCOME"⟩] := by
  have hfB : monthIdx ⟨y, m, 1⟩ < monthIdx ⟨2025, 8, 1⟩ + monthsFuel endD := by
    have hup := day1_monthIdx_le hm2 hvend hend
    unfold monthsFuel
    simp only [monthIdx] at hup ⊢
    omega
  rw [monthlyIncomeEvents_filter (monthsFuel endD) 2025 8 y m (by omega) (by omega) hm1 hm2
    (by simp only [monthIdx]; omega) hend hfB]
  unfold monthlyBody
  split_ifs with hA hB hC
  · rfl
  · exfalso
    have h8 : m = 8 := hC.1
    have h25 : y = 2025 := hC.2
    apply hA
    rw [h8, h25]
    rfl
  · rfl
  · rfl

/-- Claim C7, witness: the amended per-month rule applied to September
2025 for a settlement on 20/09/2025 with window end 01/10/2025 — a
pre-settlement month receiving the 5700 and 500 savings events. -/
theorem claim7_witness :
    Valid (⟨2025, 10, 1⟩ : Date) ∧ 1 ≤ 9 ∧ 9 ≤ 12 ∧ 2025 * 12 + 8 ≤ 2025 * 12 + 9 ∧
    dateLE ⟨2025, 9, 1⟩ ⟨2025, 10, 1⟩ ∧
    ((monthlyIncomeEvents ⟨2025, 9, 20⟩ ⟨2025, 10, 1⟩ (monthsFuel ⟨2025, 10, 1⟩)
        ⟨2025, 8, 1⟩).filter (fun e => e.date = ⟨2025, 9, 1⟩) =
      if (⟨2025, 9, 1⟩ : Date) = income_date then []
      else if dateLT ⟨2025, 9, 1⟩ ⟨2025, 9, 20⟩ then
        [⟨⟨2025, 9, 1⟩, "Monthly Savings #1 (Pre-Settlement)", 5700, "PRE-SETTLEMENT INCOME"⟩,
         ⟨⟨2025, 9, 1⟩, "Monthly Savings #2 (Pre-Settlement)", 500, "PRE-SETTLEMENT INCOME"⟩]
      else
        [⟨⟨2025, 9, 1⟩, "Monthly Income (Post-Settlement - Mortgage Allocation + Savings)",
          8261, "MONTHLY INCOME"⟩]) :=
  ⟨by decide, by decide, by decide, by decide, by decide,
    claim7_theorem ⟨2025, 9, 20⟩ ⟨2025, 10, 1⟩ 2025 9 (by decide) (by decide) (by decide)
      (by decide) (by decide)⟩

end MortgageCalc
